import Mathlib

/-!
Verification of the markdown-to-ADF renderer (package `renderer`,
file `renderer.go`).

The external markdown parser (goldmark) is out of scope: it is modelled by
the AST it hands to the renderer, i.e. a tree of typed nodes together with
the depth-first enter/exit event stream that `ast.Walk` produces.  The
renderer itself (`astToADFType`, `renderSingle`, the `blockNodeStack`, and
`Render`'s walk loop plus JSON serialization) is embedded faithfully below.

Go's `blockNodeStack` holds pointers into the output document: `Push`
appends the node to the content of the node currently on top and then makes
it the new top, so later mutations of the pushed node are visible through
its parent.  The functional embedding keeps the stack as a list of frames
(head = top, document root at the bottom) and defers the attachment of a
frame to its parent until the frame is popped; at serialization time the
remaining frames are collapsed bottom-up.  For every execution this yields
exactly the tree Go's aliased pointers build.
-/

namespace MdToAdf

/-- The data of a goldmark AST node that `renderSingle` inspects: the node's
dynamic type together with its discriminating attributes (`Heading.Level`,
`List.IsOrdered()`, the result of `n.Text(source)` for text nodes, the raw
line content for code blocks, destination/title for links and images).
`autoLink` stands for a goldmark node type (`ast.AutoLink`, produced by the
GFM extension) that has no case in `renderSingle`'s switch. -/
inductive Kind where
  | document
  | paragraph
  | textBlock
  | heading (level : Nat)
  | text (content : String)
  | str (content : String)
  | codeSpan
  | strikethrough
  | emphasis
  | thematicBreak
  | blockquote
  | list (ordered : Bool)
  | listItem
  | link (destination title : String)
  | image (destination title : String)
  | codeBlock (lines : String)
  | fencedCodeBlock (info lines : String)
  | htmlBlock
  | rawHTML
  | table
  | tableHeader
  | tableRow
  | tableCell
  | autoLink (destination : String)

/-- A goldmark AST: a kind plus the node's children (leaf nodes, such as
raw code blocks whose content lives in `Lines()` rather than in child
nodes, simply have an empty child list). -/
inductive ASTNode where
  | node (kind : Kind) (children : List ASTNode)

/-- One event of goldmark's `ast.Walk`: each node is visited once on entry
and once on exit.  Only the node's `Kind` is consulted by the renderer. -/
inductive Event where
  | enter (k : Kind)
  | exit (k : Kind)

/-- The enter/exit event stream `ast.Walk` produces for one subtree
(`renderSingle` always returns `WalkContinue`, so children are always
visited). -/
def walkEvents : ASTNode → List Event
  | .node k cs => Event.enter k :: walkChildren cs ++ [Event.exit k]
where walkChildren : List ASTNode → List Event
  | [] => []
  | c :: cs => walkEvents c ++ walkChildren cs

/-- The event stream processed by `ADFRenderer.Render`, which walks each
child of the document root in turn (the root `ast.Document` node itself is
never passed to `renderSingle`). -/
def docEvents : ASTNode → List Event
  | .node _ cs => walkEvents.walkChildren cs

/-- Go struct `Attributes`.  The `Width float32` field is never assigned by
any code path of the package (and floating point is not modelled); only
`Layout` (never assigned either) and `Level` are kept. -/
structure Attributes where
  layout : String := ""
  level : Nat := 0
deriving Repr, DecidableEq

/-- Go struct `Node`: `Type`, `Version`, `Attributes` (pointer, `none` when
nil), `Content`, `Marks` (Go's `Mark` is a string type), `Text`. -/
inductive Node where
  | mk (type : String) (version : Nat) (attrs : Option Attributes)
      (content : List Node) (marks : List String) (text : String)

/-- The `Type` field. -/
def Node.type : Node → String
  | .mk t _ _ _ _ _ => t

/-- The `Text` field. -/
def Node.text : Node → String
  | .mk _ _ _ _ _ tx => tx

/-- Go method `(n *Node) AddContent(c *Node)`: append `c` to `n.Content`. -/
def Node.addContent : Node → Node → Node
  | .mk t v a cs ms tx, c => .mk t v a (cs ++ [c]) ms tx

/-- The ways the embedded renderer can abort: `emptyStack` models the Go
panics of the intentionally-unsafe `Peek`/`Pop`/`Push` indexing an empty
`blockNodeStack` slice, `unknownKind` models the explicit
`panic("unknown type" + ...)` in `renderSingle`'s default case. -/
inductive RenderErr where
  | emptyStack
  | unknownKind (kind : String)
deriving Repr, DecidableEq

/-- The `blockNodeStack` contents, head = top of stack, document root at
the bottom. -/
abbrev RStack := List Node

/-- Go function `astToADFType` (a type switch; cases with an empty body
fall out of the switch and return `TypeNone`). -/
def astToADFType : Kind → String
  | .document => "none"
  | .paragraph | .textBlock => "paragraph"
  | .heading _ => "heading"
  | .text _ | .str _ | .strikethrough | .emphasis => "text"
  | .codeSpan | .codeBlock _ | .fencedCodeBlock _ _ => "codeBlock"
  | .thematicBreak => "none"
  | .blockquote => "blockquote"
  | .list ordered => if ordered then "orderedList" else "bulletList"
  | .listItem => "listItem"
  | .link _ _ => "none"
  | .image _ _ => "media"
  | .htmlBlock | .rawHTML => "none"
  | .table => "table"
  | .tableHeader => "table_header"
  | .tableRow => "table_row"
  | .tableCell => "table_cell"
  | .autoLink _ => "none"

/-- A freshly allocated `&Node{Type: t}`: all other fields at their Go zero
values. -/
def emptyNode (t : String) : Node := .mk t 0 none [] [] ""

/-- Go `blockNodeStack.Push`: peeks the current top (panics on an empty
stack) and makes the node the new top.  Attachment of the node to its
parent's content is deferred to the pop (see the file comment). -/
def blockPush : RStack → Node → Except RenderErr RStack
  | [], _ => .error .emptyStack
  | top :: rest, n => .ok (n :: top :: rest)

/-- `r.blockContext.Peek().AddContent(adfNode)`: append a finished leaf to
the content of the node on top of the stack (panics on an empty stack). -/
def addContentTop : RStack → Node → Except RenderErr RStack
  | [], _ => .error .emptyStack
  | top :: rest, c => .ok (top.addContent c :: rest)

/-- The text leaf `renderSingle` builds for an `*ast.Text` node:
`adfNode.Text = string(n.Text(source))`, substituting a single space when
the extracted text has zero length. -/
def textNodeFor (s : String) : Node :=
  .mk "text" 0 none [] [] (if s.length = 0 then " " else s)

/-- The `entering` half of `renderSingle`: the switch on the node's dynamic
type.  Cases whose Go body only calls `fmt.Printf` (all their rendering
logic is commented out in the source) leave the state unchanged; the
`default` case panics. -/
def renderEnter (st : RStack) (k : Kind) : Except RenderErr RStack :=
  match k with
  | .document => .ok st
  | .textBlock => blockPush st (emptyNode (astToADFType .textBlock))
  | .paragraph => blockPush st (emptyNode (astToADFType .paragraph))
  | .heading lvl =>
      blockPush st (.mk (astToADFType (.heading lvl)) 0
        (some { layout := "", level := lvl }) [] [] "")
  | .text s => addContentTop st (textNodeFor s)
  | .str _ => .ok st
  | .codeSpan => .ok st
  | .strikethrough => .ok st
  | .emphasis => .ok st
  | .thematicBreak => .ok st
  | .blockquote => .ok st
  | .list ordered => blockPush st (emptyNode (astToADFType (.list ordered)))
  | .listItem => blockPush st (emptyNode (astToADFType .listItem))
  | .link _ _ => .ok st
  | .image _ _ => .ok st
  | .codeBlock _ => .ok st
  | .fencedCodeBlock _ _ => .ok st
  | .htmlBlock => .ok st
  | .rawHTML => .ok st
  | .table => .ok st
  | .tableHeader => .ok st
  | .tableRow => .ok st
  | .tableCell => .ok st
  | .autoLink _ => .error (.unknownKind "AutoLink")

/-- The `!entering` half of `renderSingle`:
`if astToADFType(n) == r.blockContext.Peek().Type { r.blockContext.Pop() }`.
`Peek` on an empty stack panics.  The pop attaches the popped frame to its
parent (in Go the attachment already happened at push time through the
aliased pointer). -/
def renderExit (st : RStack) (k : Kind) : Except RenderErr RStack :=
  match st with
  | [] => .error .emptyStack
  | top :: rest =>
    if astToADFType k = top.type then
      match rest with
      | [] => .ok []
      | parent :: rest' => .ok (parent.addContent top :: rest')
    else .ok (top :: rest)

/-- `renderSingle` on one walk event. -/
def step (st : RStack) : Event → Except RenderErr RStack
  | .enter k => renderEnter st k
  | .exit k => renderExit st k

/-- The walk loop: process events in order, aborting on the first panic. -/
def runEvents (st : RStack) : List Event → Except RenderErr RStack
  | [] => .ok st
  | e :: es =>
    match step st e with
    | .ok st' => runEvents st' es
    | .error err => .error err

/-- `NewRenderer`'s initial state: the stack holds (a pointer to) the root
document node `Node{Version: 1, Type: "doc"}`. -/
def initialStack : RStack := [.mk "doc" 1 none [] [] ""]

/-- Recover `r.document` from the final stack: collapse any still-open
frames into their parents, bottom of the stack = the document root.  (In Go
the document pointer always exists; an empty stack is unreachable, see the
stack-safety theorem.) -/
def finalize : RStack → Option Node
  | [] => none
  | top :: rest => some (rest.foldl (fun acc parent => parent.addContent acc) top)

/-- Run a full event stream from the given renderer state and return the
finished document tree. -/
def renderFrom (st : RStack) (evs : List Event) : Except RenderErr Node :=
  match runEvents st evs with
  | .error e => .error e
  | .ok st' =>
    match finalize st' with
    | some d => .ok d
    | none => .error .emptyStack

/-- Run a full event stream from a fresh renderer (`NewRenderer`) and
return the finished document tree. -/
def renderEvents (evs : List Event) : Except RenderErr Node :=
  renderFrom initialStack evs

/-- `Render`: walk every child of the parsed document through
`renderSingle` and return the finished tree. -/
def render (doc : ASTNode) : Except RenderErr Node :=
  renderEvents (docEvents doc)

/-!
## JSON serialization

`Render` finishes with `json.MarshalIndent(r.document, "", "  ")` and writes
the bytes to the output writer.  A JSON value is modelled with object
fields as an ordered association list, in the order Go's `encoding/json`
emits struct fields (declaration order, honouring `omitempty`).
-/

/-- A JSON value; object fields are kept in emission order. -/
inductive Json where
  | str (s : String)
  | num (n : Nat)
  | arr (xs : List Json)
  | obj (fields : List (String × Json))

/-- JSON text for a value (compact form; Go pretty-prints with two-space
indentation and escapes more characters, but the byte output is a function
of the `Json` value either way, which is all the theorems below use). -/
def encodeJson : Json → String
  | .str s => "\"" ++ s ++ "\""
  | .num n => toString n
  | .arr xs => "[" ++ encodeList xs ++ "]"
  | .obj fs => "\x7b" ++ encodeFields fs ++ "\x7d"
where
  encodeList : List Json → String
    | [] => ""
    | [j] => encodeJson j
    | j :: js => encodeJson j ++ "," ++ encodeList js
  encodeFields : List (String × Json) → String
    | [] => ""
    | [(k, j)] => "\"" ++ k ++ "\":" ++ encodeJson j
    | (k, j) :: fs => "\"" ++ k ++ "\":" ++ encodeJson j ++ "," ++ encodeFields fs

/-- Marshalling of the `Attributes` struct: field order `Width` (never
assigned, hence always omitted), `Layout`, `Level`, each `omitempty`. -/
def attrsToJson (a : Attributes) : Json :=
  .obj ((if a.layout = "" then [] else [("layout", Json.str a.layout)]) ++
        (if a.level = 0 then [] else [("level", Json.num a.level)]))

/-- Marshalling of a `Node`: field order `type`, `version,omitempty`,
`attrs,omitempty` (nil pointer omitted), `content,omitempty`,
`marks,omitempty` (Go's `Mark` is a string type, so marks marshal as JSON
strings), `text,omitempty`. -/
def nodeToJson : Node → Json
  | .mk t v a cs ms tx =>
    .obj ([("type", Json.str t)] ++
          (if v = 0 then [] else [("version", Json.num v)]) ++
          (match a with | none => [] | some a' => [("attrs", attrsToJson a')]) ++
          (if cs.isEmpty then [] else [("content", Json.arr (jsonList cs))]) ++
          (if ms.isEmpty then [] else [("marks", Json.arr (ms.map Json.str))]) ++
          (if tx = "" then [] else [("text", Json.str tx)]))
where
  jsonList : List Node → List Json
    | [] => []
    | n :: ns => nodeToJson n :: jsonList ns

/-- Lexicographic comparison of character lists (by code point). -/
def charsLe : List Char → List Char → Bool
  | [], _ => true
  | _ :: _, [] => false
  | a :: as, b :: bs =>
    if a.toNat < b.toNat then true
    else if b.toNat < a.toNat then false
    else charsLe as bs

/-- Lexicographic comparison of two object keys. -/
def keyLe (a b : String) : Bool := charsLe a.data b.data

/-- Insert a field into a key-sorted field list. -/
def insertField : (String × Json) → List (String × Json) → List (String × Json)
  | p, [] => [p]
  | p, q :: qs => if keyLe p.1 q.1 then p :: q :: qs else q :: insertField p qs

/-- Key-sort a field list (insertion sort). -/
def sortFields : List (String × Json) → List (String × Json)
  | [] => []
  | p :: ps => insertField p (sortFields ps)

/-- Normal form of a JSON value with every object's fields sorted by key:
two serializations denote the same JSON document (JSON objects are
unordered collections of key/value pairs) iff their normal forms are
equal. -/
def sortKeys : Json → Json
  | .str s => .str s
  | .num n => .num n
  | .arr xs => .arr (sortList xs)
  | .obj fs => .obj (sortFields (sortInner fs))
where
  sortList : List Json → List Json
    | [] => []
    | j :: js => sortKeys j :: sortList js
  sortInner : List (String × Json) → List (String × Json)
    | [] => []
    | (k, j) :: fs => (k, sortKeys j) :: sortInner fs

/-- `Render` including serialization, from an arbitrary starting renderer
state: the bytes written to the output writer. -/
def serializeFrom (st : RStack) (evs : List Event) : Except RenderErr String :=
  (renderFrom st evs).map (fun d => encodeJson (nodeToJson d))

/-!
## Observers on the output tree
-/

/-- Number of nodes of the given `type` in a tree. -/
def countType (t : String) : Node → Nat
  | .mk ty _ _ cs _ _ => (if ty = t then 1 else 0) + countList cs
where
  countList : List Node → Nat
    | [] => 0
    | n :: ns => countType t n + countList ns

/-- Total number of marks attached anywhere in a tree. -/
def marksTotal : Node → Nat
  | .mk _ _ _ cs ms _ => ms.length + marksList cs
where
  marksList : List Node → Nat
    | [] => 0
    | n :: ns => marksTotal n + marksList ns

/-- Whether the tree contains a text node with exactly the given text and
the given mark list. -/
def hasTextLeaf (tx : String) (ms : List String) : Node → Bool
  | .mk t _ _ cs ms' tx' =>
    (t == "text" && tx' == tx && ms' == ms) || hasList cs
where
  hasList : List Node → Bool
    | [] => false
    | n :: ns => hasTextLeaf tx ms n || hasList ns

/-- `AllNodes p n`: the property `p` of a node's `type` and `text` fields
holds at every node of the tree `n`. -/
inductive AllNodes (p : String → String → Prop) : Node → Prop where
  | mk : ∀ t v a cs ms tx, p t tx → (∀ c ∈ cs, AllNodes p c) →
      AllNodes p (.mk t v a cs ms tx)

/-- Every frame on the stack satisfies `AllNodes p`. -/
def StackOk (p : String → String → Prop) (st : RStack) : Prop :=
  ∀ f ∈ st, AllNodes p f

/-- The node at the bottom of the stack has type `"doc"` (and in
particular the stack is non-empty). -/
def bottomIsDoc : RStack → Prop
  | [] => False
  | [n] => n.type = "doc"
  | _ :: n :: rest => bottomIsDoc (n :: rest)

/-!
## Concrete inputs

The goldmark ASTs of the concrete markdown inputs named by the spec's
testable properties (the external parser is out of scope; these are the
trees it hands the renderer).
-/

/-- AST of a document that is a single paragraph of plain text "hello". -/
def helloDoc : ASTNode :=
  .node .document [.node .paragraph [.node (.text "hello") []]]

/-- AST of `> > hello`: a block quote containing a nested block quote
containing a paragraph. -/
def nestedQuoteDoc : ASTNode :=
  .node .document
    [.node .blockquote [.node .blockquote
      [.node .paragraph [.node (.text "hello") []]]]]

/-- AST of a paragraph holding the inline code span `` `code` `` (goldmark
parses the code span's literal text as a child `ast.Text` node). -/
def codeSpanDoc : ASTNode :=
  .node .document [.node .paragraph [.node .codeSpan [.node (.text "code") []]]]

/-- AST of a paragraph holding `[text](https://example.com "t")`. -/
def linkDoc : ASTNode :=
  .node .document
    [.node .paragraph
      [.node (.link "https://example.com" "t") [.node (.text "text") []]]]

/-- AST of a fenced code block whose body contains a line starting with
`"* "` (in goldmark a fenced code block is a raw node: its content lives
in `Lines()`, it has no children). -/
def fencedDoc : ASTNode :=
  .node .document
    [.node (.fencedCodeBlock "bash"
      "echo hi\n* Some error that could be mistaken for a list\n") []]

/-- AST of a heading of the given level with text "Title". -/
def headingDoc (lvl : Nat) : ASTNode :=
  .node .document [.node (.heading lvl) [.node (.text "Title") []]]

/-- The tree the renderer builds for `helloDoc` (and, because the
blockquote case of `renderSingle` builds nothing, also for
`nestedQuoteDoc`). -/
def helloOut : Node :=
  .mk "doc" 1 none [.mk "paragraph" 0 none [.mk "text" 0 none [] [] "hello"] [] ""] [] ""

/-- The JSON document the spec requires for `helloDoc`, written with the
spec's field order. -/
def c5Expected : Json :=
  .obj [("version", .num 1), ("type", .str "doc"),
        ("content", .arr [.obj [("type", .str "paragraph"),
          ("content", .arr [.obj [("type", .str "text"), ("text", .str "hello")]])]])]

/-- The hypotheses on `p` needed for tree-wide preservation: `p` holds of
the root and of every node shape the renderer ever inserts into the tree
(the pushed block types and the substituted text leaves). -/
def InsertOk (p : String → String → Prop) : Prop :=
  p "doc" "" ∧ p "paragraph" "" ∧ p "heading" "" ∧ p "orderedList" "" ∧
  p "bulletList" "" ∧ p "listItem" "" ∧
  (∀ s : String, p "text" (if s.length = 0 then " " else s))

/-!
## Helper lemmas
-/

theorem Node.type_addContent (n c : Node) : (n.addContent c).type = n.type := by
  cases n; rfl

/-- No AST node kind is mapped to the ADF type `"doc"`: the mapping's
range is the listed node types plus the sentinel `"none"`. -/
theorem astToADFType_ne_doc (k : Kind) : astToADFType k ≠ "doc" := by
  cases k <;> simp only [astToADFType] <;>
    first
      | (split <;> simp)
      | simp

theorem bottomIsDoc_ne_nil {st : RStack} (h : bottomIsDoc st) : st ≠ [] := by
  intro hn; subst hn; exact h

theorem bottomIsDoc_head {x y : Node} {rest : RStack} (hty : y.type = x.type)
    (h : bottomIsDoc (x :: rest)) : bottomIsDoc (y :: rest) := by
  cases rest with
  | nil => simp only [bottomIsDoc] at h ⊢; rw [hty]; exact h
  | cons z zs => exact h

/-- One renderer step from a state whose bottom is the document root never
underflows the stack, and preserves that shape: a pop of the bottom frame
would need the exiting node's mapped type to be `"doc"`, which
`astToADFType` never returns. -/
theorem step_inv {st : RStack} (e : Event) (hinv : bottomIsDoc st) :
    step st e ≠ .error .emptyStack ∧
    (∀ st', step st e = .ok st' → bottomIsDoc st') := by
  cases st with
  | nil => exact absurd hinv (by simp [bottomIsDoc])
  | cons top rest =>
    cases e with
    | exit k =>
      simp only [step, renderExit]
      by_cases hm : astToADFType k = top.type
      · rw [if_pos hm]
        cases rest with
        | nil =>
          exact absurd (hm.trans hinv) (astToADFType_ne_doc k)
        | cons parent rest' =>
          refine ⟨by simp, ?_⟩
          intro st' h'
          cases h'
          exact bottomIsDoc_head (Node.type_addContent parent top) hinv
      · rw [if_neg hm]
        exact ⟨by simp, fun st' h' => by cases h'; exact hinv⟩
    | enter k =>
      cases k <;> constructor <;>
      simp only [step, renderEnter, blockPush, addContentTop] <;> try simp
      all_goals
        first
          | exact hinv
          | exact bottomIsDoc_head (Node.type_addContent top _) hinv

/-- Iterated steps preserve the document-root shape of the stack and never
underflow. -/
theorem runEvents_inv : ∀ (evs : List Event) (st : RStack), bottomIsDoc st →
    runEvents st evs ≠ .error .emptyStack ∧
    (∀ st', runEvents st evs = .ok st' → bottomIsDoc st') := by
  intro evs
  induction evs with
  | nil =>
    intro st h
    exact ⟨by simp [runEvents], fun st' h' => by injection h' with h''; subst h''; exact h⟩
  | cons e es ih =>
    intro st h
    have hs := step_inv e h
    simp only [runEvents]
    cases hstep : step st e with
    | ok st2 => exact ih st2 (hs.2 st2 hstep)
    | error err =>
      refine ⟨?_, fun st' h' => Except.noConfusion h'⟩
      intro hc
      injection hc with h''
      subst h''
      exact hs.1 hstep

theorem AllNodes.addContent {p : String → String → Prop} {n c : Node}
    (hn : AllNodes p n) (hc : AllNodes p c) : AllNodes p (n.addContent c) := by
  cases hn with
  | mk t v a cs ms tx hp hcs =>
    refine AllNodes.mk t v a (cs ++ [c]) ms tx hp ?_
    intro x hx
    rcases List.mem_append.1 hx with h | h
    · exact hcs x h
    · simp at h; subst h; exact hc

theorem allNodes_emptyNode {p : String → String → Prop} {t : String} (h : p t "") :
    AllNodes p (emptyNode t) :=
  AllNodes.mk t 0 none [] [] "" h (by simp)

/-- Entering a node only ever inserts the shapes covered by `InsertOk`. -/
theorem renderEnter_stackOk {p : String → String → Prop} (hp : InsertOk p)
    {st st' : RStack} {k : Kind}
    (hok : renderEnter st k = .ok st') (h : StackOk p st) : StackOk p st' := by
  obtain ⟨hdoc, hpar, hhead, hol, hbl, hli, htext⟩ := hp
  cases st with
  | nil =>
    cases k <;> simp only [renderEnter, blockPush, addContentTop] at hok <;>
      first
        | exact Except.noConfusion hok
        | (injection hok with h''; subst h''; exact h)
  | cons top rest =>
    have htop : AllNodes p top := h top (by simp)
    have hrest : StackOk p rest := fun f hf => h f (by simp [hf])
    have hcons : ∀ x : Node, AllNodes p x → StackOk p (x :: rest) := by
      intro x hx f hf
      rcases List.mem_cons.1 hf with h' | h'
      · subst h'; exact hx
      · exact hrest f h'
    have hpush : ∀ x : Node, AllNodes p x → StackOk p (x :: top :: rest) := by
      intro x hx f hf
      rcases List.mem_cons.1 hf with h' | h'
      · subst h'; exact hx
      · exact h f h'
    cases k <;> simp only [renderEnter, blockPush, addContentTop] at hok <;>
      first
        | exact Except.noConfusion hok
        | (injection hok with h''; subst h'';
           first
             | exact h
             | exact hpush _ (allNodes_emptyNode hpar)
             | exact hpush _ (allNodes_emptyNode hol)
             | exact hpush _ (allNodes_emptyNode hli)
             | exact hcons _ (htop.addContent
                 (AllNodes.mk _ _ _ _ _ _ (htext _) (by simp))))
        | skip
    case heading lvl =>
      injection hok with h''
      subst h''
      exact hpush _ (AllNodes.mk _ _ _ _ _ _ hhead (by simp))
    case list ordered =>
      injection hok with h''
      subst h''
      cases ordered
      · exact hpush _ (allNodes_emptyNode hbl)
      · exact hpush _ (allNodes_emptyNode hol)

/-- A pop only moves an existing frame into its parent's content. -/
theorem renderExit_stackOk {p : String → String → Prop} {st st' : RStack} {k : Kind}
    (hok : renderExit st k = .ok st') (h : StackOk p st) : StackOk p st' := by
  cases st with
  | nil => exact Except.noConfusion hok
  | cons top rest =>
    simp only [renderExit] at hok
    by_cases hm : astToADFType k = top.type
    · rw [if_pos hm] at hok
      cases rest with
      | nil =>
        injection hok with h''
        subst h''
        intro f hf
        simp at hf
      | cons parent rest' =>
        injection hok with h''
        subst h''
        intro f hf
        rcases List.mem_cons.1 hf with h' | h'
        · subst h'
          exact AllNodes.addContent (h parent (by simp)) (h top (by simp))
        · exact h f (by simp [h'])
    · rw [if_neg hm] at hok
      injection hok with h''
      subst h''
      exact h

theorem runEvents_stackOk {p : String → String → Prop} (hp : InsertOk p) :
    ∀ (evs : List Event) (st st' : RStack),
      runEvents st evs = .ok st' → StackOk p st → StackOk p st' := by
  intro evs
  induction evs with
  | nil =>
    intro st st' h' h
    injection h' with h''
    subst h''
    exact h
  | cons e es ih =>
    intro st st' h' h
    simp only [runEvents] at h'
    cases hstep : step st e with
    | ok st2 =>
      rw [hstep] at h'
      refine ih st2 st' h' ?_
      cases e with
      | enter k => exact renderEnter_stackOk hp hstep h
      | exit k => exact renderExit_stackOk hstep h
    | error err => rw [hstep] at h'; exact Except.noConfusion h'

theorem foldl_addContent_allNodes {p : String → String → Prop} :
    ∀ (rest : List Node) (acc : Node), AllNodes p acc → (∀ f ∈ rest, AllNodes p f) →
      AllNodes p (rest.foldl (fun acc parent => parent.addContent acc) acc) := by
  intro rest
  induction rest with
  | nil => intro acc hacc _; exact hacc
  | cons r rs ih =>
    intro acc hacc hrest
    simp only [List.foldl_cons]
    exact ih (r.addContent acc)
      (AllNodes.addContent (hrest r (by simp)) hacc)
      (fun f hf => hrest f (by simp [hf]))

theorem finalize_allNodes {p : String → String → Prop} {st : RStack} {d : Node}
    (h : StackOk p st) (hfin : finalize st = some d) : AllNodes p d := by
  cases st with
  | nil => exact Option.noConfusion hfin
  | cons top rest =>
    simp only [finalize] at hfin
    injection hfin with h''
    subst h''
    exact foldl_addContent_allNodes rest top (h top (by simp))
      (fun f hf => h f (by simp [hf]))

/-- Any property of (`type`, `text`) that holds of the root and of every
inserted node shape holds of every node of every finished document. -/
theorem renderEvents_allNodes {p : String → String → Prop} (hp : InsertOk p) :
    ∀ (evs : List Event) (d : Node), renderEvents evs = .ok d → AllNodes p d := by
  intro evs d h
  cases hrun : runEvents initialStack evs with
  | error e =>
    simp only [renderEvents, renderFrom, hrun] at h
    exact Except.noConfusion h
  | ok st =>
    simp only [renderEvents, renderFrom, hrun] at h
    have hok : StackOk p st := by
      refine runEvents_stackOk hp evs initialStack st hrun ?_
      intro f hf
      simp only [initialStack, List.mem_singleton] at hf
      subst hf
      exact AllNodes.mk _ _ _ _ _ _ hp.1 (by simp)
    cases hfin : finalize st with
    | none =>
      simp only [hfin] at h
      exact Except.noConfusion h
    | some d' =>
      simp only [hfin] at h
      injection h with h''
      subst h''
      exact finalize_allNodes hok hfin

/-!
## The claims
-/

/-- C1, counterexample.  The claim says a block quote containing a nested
block quote containing a paragraph renders to exactly one `blockquote`
node.  In the code the `*ast.Blockquote` case of `renderSingle` only calls
`fmt.Printf` (its handler is commented out), so on the input `> > hello`
the output tree contains zero `blockquote` nodes, not one. -/
theorem C1_no_blockquote_counterexample :
    (render nestedQuoteDoc).map (countType "blockquote") = .ok 0 ∧
    ¬ ((render nestedQuoteDoc).map (countType "blockquote") = .ok 1) :=
  ⟨rfl, fun h => absurd (Except.ok.inj h) (by decide)⟩

/-- C1, amended.  A block quote containing a nested block quote containing
a paragraph renders with no `blockquote` wrapper at all: the inner
paragraph is attached directly to the document root, and the output never
contains two nested `blockquote` nodes (it contains zero). -/
theorem C1_nested_blockquote_flattened_to_plain_paragraph :
    render nestedQuoteDoc = .ok helloOut ∧
    countType "blockquote" helloOut = 0 ∧
    countType "paragraph" helloOut = 1 :=
  ⟨rfl, rfl, rfl⟩

/-- C2, counterexample.  The claim says `` `code` `` renders to a text
leaf with text "code" and mark list `[code]`, and a link renders to a text
leaf carrying a `link` mark.  In the code the `*ast.CodeSpan` and
`*ast.Link` cases of `renderSingle` only call `fmt.Printf`, and no code
path ever assigns `Marks`: the output for the code span has no leaf with
text "code" and marks `["code"]`, and the output for the link carries zero
marks anywhere in the tree. -/
theorem C2_no_marks_counterexample :
    (render codeSpanDoc).map (hasTextLeaf "code" ["code"]) = .ok false ∧
    (render linkDoc).map marksTotal = .ok 0 :=
  ⟨rfl, rfl⟩

/-- C2, amended.  Input `` `code` `` produces the unmarked text leaf
`{"type":"text","text":"code"}` inside its paragraph, and input
`[text](https://example.com "t")` produces the unmarked text leaf
`{"type":"text","text":"text"}`: the literal text survives via the child
`ast.Text` nodes, but no mark is attached and the destination and title
are dropped (the `Node`/`Mark` model has no field that could carry
them). -/
theorem C2_inline_code_and_link_render_as_unmarked_text :
    render codeSpanDoc =
      .ok (.mk "doc" 1 none
        [.mk "paragraph" 0 none [.mk "text" 0 none [] [] "code"] [] ""] [] "") ∧
    render linkDoc =
      .ok (.mk "doc" 1 none
        [.mk "paragraph" 0 none [.mk "text" 0 none [] [] "text"] [] ""] [] "") :=
  ⟨rfl, rfl⟩

/-- C3, counterexample.  The claim says a fenced code block whose body
contains a line starting with `"* "` produces a `codeBlock` node carrying
that line.  In the code the `*ast.FencedCodeBlock` case of `renderSingle`
only calls `fmt.Printf`, and a fenced code block is a raw node without
children, so the output contains zero `codeBlock` nodes. -/
theorem C3_no_codeBlock_counterexample :
    (render fencedDoc).map (countType "codeBlock") = .ok 0 ∧
    ¬ (∃ n, 0 < n ∧ (render fencedDoc).map (countType "codeBlock") = .ok n) :=
  ⟨rfl, fun ⟨n, hpos, heq⟩ => by
    have h0 : n = 0 := (Except.ok.inj heq).symm
    subst h0
    exact absurd hpos (by decide)⟩

/-- C3, amended.  A document whose sole block is a fenced code block
renders to an empty document: the block's content (including the `"* "`
line) is dropped entirely, so the output contains no `codeBlock` node —
and, as the claim's second half states, also no `bulletList` node. -/
theorem C3_fenced_code_block_content_dropped :
    render fencedDoc = .ok (.mk "doc" 1 none [] [] "") ∧
    countType "codeBlock" (.mk "doc" 1 none [] [] "") = 0 ∧
    countType "bulletList" (.mk "doc" 1 none [] [] "") = 0 :=
  ⟨rfl, rfl, rfl⟩

/-- C4 (confirmed).  Rendering a heading of level `lvl` (the AST goldmark
produces for `"# Title"` at level 1, `"### Title"` at level 3, etc.)
yields a heading node whose `attrs.level` equals `lvl`. -/
theorem C4_heading_level_preserved (lvl : Nat) :
    render (headingDoc lvl) =
      .ok (.mk "doc" 1 none
        [.mk "heading" 0 (some { layout := "", level := lvl })
          [.mk "text" 0 none [] [] "Title"] [] ""] [] "") :=
  rfl

/-- C5 (confirmed).  Converting a document that is a single paragraph of
plain text "hello" yields exactly the JSON document
`{"version":1,"type":"doc","content":[{"type":"paragraph","content":
[{"type":"text","text":"hello"}]}]}`: the serialized output and the
claim's literal are equal as JSON documents (compared with every object's
fields key-sorted, since JSON objects are unordered; Go emits `type`
before `version` and pretty-prints, which does not change the
document). -/
theorem C5_hello_paragraph_serialization :
    render helloDoc = .ok helloOut ∧
    (render helloDoc).map (fun d => sortKeys (nodeToJson d)) =
      .ok (sortKeys c5Expected) :=
  ⟨rfl, rfl⟩

/-- C6 (confirmed).  A text node whose extracted literal content has zero
length is built with `text = " "` (one space), and in every finished
document every node of type `"text"` has a non-empty `text` field. -/
theorem C6_empty_text_substitution :
    (∀ s : String, s.length = 0 → textNodeFor s = Node.mk "text" 0 none [] [] " ") ∧
    (∀ (evs : List Event) (d : Node), renderEvents evs = .ok d →
      AllNodes (fun t tx => t = "text" → tx ≠ "") d) := by
  constructor
  · intro s hs
    simp [textNodeFor, hs]
  · refine renderEvents_allNodes ?_
    refine ⟨by simp, by simp, by simp, by simp, by simp, by simp, ?_⟩
    intro s _
    split
    · simp
    · next hlen =>
      intro hcon
      subst hcon
      simp at hlen

/-- Witness for C6 at the concrete input `helloDoc`. -/
theorem C6_empty_text_substitution_witness :
    textNodeFor "" = Node.mk "text" 0 none [] [] " " ∧
    AllNodes (fun t tx => t = "text" → tx ≠ "") helloOut :=
  ⟨C6_empty_text_substitution.1 "" rfl,
   C6_empty_text_substitution.2 (docEvents helloDoc) helloOut rfl⟩

/-- C7 (confirmed).  Conversion is a deterministic function of the input
event stream: two runs over the same events, each from a fresh renderer
state (`NewRenderer`), produce identical serialized output bytes. -/
theorem C7_conversion_deterministic (evs : List Event) (st₁ st₂ : RStack)
    (h₁ : st₁ = initialStack) (h₂ : st₂ = initialStack) :
    serializeFrom st₁ evs = serializeFrom st₂ evs := by
  rw [h₁, h₂]

/-- Witness for C7 at the concrete input `helloDoc`. -/
theorem C7_conversion_deterministic_witness :
    serializeFrom initialStack (docEvents helloDoc) =
      serializeFrom initialStack (docEvents helloDoc) :=
  C7_conversion_deterministic (docEvents helloDoc) initialStack initialStack rfl rfl

/-- C8 (confirmed).  An AST node kind with no case in `renderSingle`'s
switch (here goldmark's `ast.AutoLink`) makes the dispatch abort
(`panic`), in every state, and the whole conversion aborts with that
error instead of continuing: no partially rendered document is
produced. -/
theorem C8_unknown_kind_aborts (st : RStack) (dest : String) (rest : List Event) :
    step st (.enter (.autoLink dest)) = .error (.unknownKind "AutoLink") ∧
    renderEvents (Event.enter (Kind.autoLink dest) :: rest) =
      .error (.unknownKind "AutoLink") :=
  ⟨rfl, rfl⟩

/-- C9 (confirmed).  No finished document ever contains a node whose type
is the sentinel `"none"`: the only nodes inserted are the pushed block
nodes (paragraph, heading, lists, list items) and text leaves, plus the
`"doc"` root. -/
theorem C9_no_none_nodes_in_output :
    ∀ (evs : List Event) (d : Node), renderEvents evs = .ok d →
      AllNodes (fun t _ => t ≠ "none") d := by
  refine renderEvents_allNodes ?_
  exact ⟨by simp, by simp, by simp, by simp, by simp, by simp, fun s => by simp⟩

/-- Witness for C9 at the concrete input `helloDoc`. -/
theorem C9_no_none_nodes_in_output_witness :
    AllNodes (fun t _ => t ≠ "none") helloOut :=
  C9_no_none_nodes_in_output (docEvents helloDoc) helloOut rfl

/-- C10 (confirmed).  For every event stream, the block-context stack
never underflows: the root `"doc"` frame pushed at construction is never
popped (an exit pops only when the exiting node's mapped type equals the
top's type, and no AST kind maps to `"doc"`), so the unguarded
`Peek`/`Pop`/`Push` never index an empty slice and any surviving state is
non-empty with the document at the bottom. -/
theorem C10_stack_never_empty (evs : List Event) :
    runEvents initialStack evs ≠ .error .emptyStack ∧
    (∀ st, runEvents initialStack evs = .ok st → st ≠ [] ∧ bottomIsDoc st) := by
  have h := runEvents_inv evs initialStack
    (by simp [bottomIsDoc, initialStack, Node.type])
  exact ⟨h.1, fun st h' => ⟨bottomIsDoc_ne_nil (h.2 st h'), h.2 st h'⟩⟩

/-- Witness for C10 at the concrete input `helloDoc` (whose run ends with
just the root on the stack). -/
theorem C10_stack_never_empty_witness :
    ([helloOut] : RStack) ≠ [] ∧ bottomIsDoc [helloOut] :=
  (C10_stack_never_empty (docEvents helloDoc)).2 [helloOut] rfl

end MdToAdf
